import Mathlib

/-!
Verification development for the FTM parity machine (src/FTM_Rev07.py).

The definitions below are a shallow embedding of the Python source:
Python unbounded integers become Int (or Nat where the source value is a
count or an index), Python lists become List Int, the csv rows become a
record of the raw field strings produced by csv.DictReader with the int(..)
conversions modelled by a fallible pyInt, collections.deque with a maxlen
bound becomes BDeque, dict access that can raise becomes Option, and a
raised exception becomes Except.error.
-/

set_option autoImplicit false

namespace FTM

/-- Transition rule, FTM_Rev07.py lines 15-19. -/
structure Rule where
  write : Int
  move : Int
  next_pc : Int

deriving instance DecidableEq for Rule

/-- Machine state, FTM_Rev07.py lines 21-26: tape contents, head index i,
control state pc and step counter cycle. -/
structure MachineState where
  tape : List Int
  i : Nat
  pc : Int
  cycle : Nat

deriving instance DecidableEq for MachineState

/-- bit_to_i16, lines 38-39. -/
def bit_to_i16 (bit : Bool) : Int := if bit then 12000 else 0

/-- One data row of the rule source exactly as produced by csv.DictReader:
every field is a raw string; the int(..) conversions of lines 55-59 are
applied later (and can fail). -/
structure CsvRow where
  pc : String
  read : String
  write : String
  move : String
  next_pc : String

deriving instance DecidableEq for CsvRow

/-- The tabular rule source seen by load_program, lines 41-53: whether the
file exists, the header columns and the data rows. -/
structure CsvSource where
  fileExists : Bool
  fieldnames : List String
  rows : List CsvRow

deriving instance DecidableEq for CsvSource

deriving instance DecidableEq for Except

abbrev ProgKey := Int × Int

/-- The program dict, keyed by (pc, read). -/
abbrev Program := List (ProgKey × Rule)

/-- Python dict assignment program[(pc, read)] = rule, line 67: the newest
binding shadows any older binding of the same key. -/
def progInsert (p : Program) (k : ProgKey) (r : Rule) : Program := (k, r) :: p

/-- Python dict lookup program[(state.pc, read_sym)], line 212, as an Option:
none models the KeyError raised on a missing key. -/
def progLookup (p : Program) (k : ProgKey) : Option Rule :=
  (p.find? (fun e => decide (e.1 = k))).map (fun e => e.2)

/-- Python membership test (pc, read) in program, line 72. -/
def progContains (p : Program) (k : ProgKey) : Bool :=
  p.any (fun e => decide (e.1 = k))

/-- The required column set of line 50. -/
def requiredFields : List String := ["pc", "read", "write", "move", "next_pc"]

/-- required.issubset(set(rdr.fieldnames or [])), lines 50-51. -/
def hasColumns (fns : List String) : Bool :=
  requiredFields.all (fun c => decide (c ∈ fns))

/-- Python str.upper over the character list. -/
def pyUpper (s : String) : String := String.mk (s.data.map Char.toUpper)

/-- Python str.strip: drop leading and trailing whitespace. -/
def pyStrip (s : String) : String :=
  String.mk (((s.data.dropWhile Char.isWhitespace).reverse.dropWhile Char.isWhitespace).reverse)

/-- row["move"].strip().upper() of line 58. -/
def normMove (mv : String) : String := pyUpper (pyStrip mv)

/-- The move-token test of line 61 applied to the normalized token. -/
def moveOk (mv : String) : Bool :=
  normMove mv = "L" || normMove mv = "R" || normMove mv = "S"

/-- move = -1 if L else (1 if R else (0 if S else None)), lines 58 and 61. -/
def parseMove (mv : String) : Option Int :=
  if normMove mv = "L" then some (-1)
  else if normMove mv = "R" then some 1
  else if normMove mv = "S" then some 0
  else none

/-- write in (0, 1, 2), line 64 (applied to the converted integer). -/
def writeOk (w : Int) : Bool := w = 0 || w = 1 || w = 2

/-- The digit block of a decimal literal: one or more ASCII digits. -/
def digitsVal (l : List Char) : Option Nat :=
  if l = [] then none
  else if l.all Char.isDigit then
    some (l.foldl (fun a c => a * 10 + (c.toNat - 48)) 0)
  else none

/-- Python int(..) applied to a field string (lines 55-59): optional
surrounding whitespace, an optional sign, then one or more decimal digits;
anything else raises ValueError, modelled as none. (Underscore grouping and
non-ASCII digits are not modelled.) -/
def pyInt (s : String) : Option Int :=
  match (pyStrip s).data with
  | [] => none
  | c :: cs =>
    if c = '-' then (digitsVal cs).map (fun n => -(n : Int))
    else if c = '+' then (digitsVal cs).map (fun n => (n : Int))
    else (digitsVal (c :: cs)).map (fun n => (n : Int))

/-- The four int(..) conversions of lines 55-57 and 59, in source order: a
ValueError in any of them aborts the row (and the load). -/
def parseRow (r : CsvRow) : Option (Int × Int × Int × Int) :=
  match pyInt r.pc, pyInt r.read, pyInt r.write, pyInt r.next_pc with
  | some pc, some read, some write, some next_pc => some (pc, read, write, next_pc)
  | _, _, _, _ => none

/-- A row survives the whole row body of lines 55-65: its integer fields
convert, its move token is valid and its converted write is in {0,1,2}. -/
def rowOk (r : CsvRow) : Bool :=
  match parseRow r with
  | none => false
  | some q => moveOk r.move && writeOk q.2.2.1

/-- The dict key (pc, read) a row contributes, when its fields convert. -/
def rowKey (r : CsvRow) : Option ProgKey :=
  (parseRow r).map (fun q => (q.1, q.2.1))

/-- The converted pc a row adds to the pcs set, when its fields convert. -/
def rowPcOpt (r : CsvRow) : Option Int :=
  (parseRow r).map (fun q => q.1)

/-- The row loop of load_program, lines 54-68: the first bad row raises
(ValueError from an int(..) conversion, a bad move token, or a bad write
value, in source order), every good row is inserted into the dict and its
converted pc recorded in the pcs set (modelled as a list, only membership
matters). -/
def processRows : List CsvRow → Program → List Int → Except String (Program × List Int)
  | [], prog, pcs => Except.ok (prog, pcs)
  | r :: rs, prog, pcs =>
    match parseRow r with
    | none => Except.error "invalid literal for int"
    | some (pc, read, write, next_pc) =>
      match parseMove r.move with
      | none => Except.error "Bad move"
      | some mv =>
        if writeOk write = true then
          processRows rs (progInsert prog (pc, read) ⟨write, mv, next_pc⟩) (pc :: pcs)
        else Except.error "write must be 0/1/(2)"

/-- load_program, lines 41-75. -/
def load_program (src : CsvSource) : Except String Program :=
  if src.fileExists = false then Except.error "Missing program file"
  else if hasColumns src.fieldnames = false then Except.error "program.csv must have columns"
  else
    match processRows src.rows [] [] with
    | Except.error e => Except.error e
    | Except.ok (prog, pcs) =>
      if pcs.all (fun pc => progContains prog (pc, 0) && progContains prog (pc, 1)) = true then
        Except.ok prog
      else Except.error "Missing rule"

/-- reset_machine, lines 77-83: the prior state is fully overwritten, the
tape becomes [0]*N with a single seed 1 at index N // 4. -/
def reset_machine (_s : MachineState) (N : Nat) : MachineState :=
  { tape := (List.replicate N 0).set (N / 4) 1
    i := 0
    pc := 1
    cycle := 0 }

/-- state = MachineState(tape=[0]*N) followed by reset_machine(state, N),
lines 160-161. -/
def mkInitial (N : Nat) : MachineState :=
  reset_machine ⟨List.replicate N 0, 0, 1, 0⟩ N

/-- The head update (tc + rule.move) % N of line 233. Int.emod agrees with
the Python % operator for a positive modulus. -/
def headUpdate (tc : Nat) (move : Int) (N : Nat) : Nat :=
  (((tc : Int) + move) % (N : Int)).toNat

/-- The per-step event handed to the rendering collaborator, lines 228-230:
row and column of the drawn pixel, the symbol written and the symbol read. -/
structure StepEvent where
  row : Nat
  col : Nat
  symbol_written : Int
  symbol_read : Int

deriving instance DecidableEq for StepEvent

/-- One machine step of the inner loop, lines 210-235 (audio generation
aside). none models a failing tape index or a failing dict lookup. -/
def stepM (prog : Program) (N : Nat) (s : MachineState) : Option (MachineState × StepEvent) :=
  match s.tape.get? s.i with
  | none => none
  | some read_sym =>
    match progLookup prog (s.pc, read_sym) with
    | none => none
    | some rule =>
      some ({ tape := s.tape.set s.i rule.write
              i := headUpdate s.i rule.move N
              pc := rule.next_pc
              cycle := s.cycle + 1 },
            { row := (s.cycle / N) % N
              col := s.i
              symbol_written := rule.write
              symbol_read := read_sym })

/-- Iterated stepping; none as soon as one step fails. -/
def runSteps (prog : Program) (N : Nat) : Nat → MachineState → Option MachineState
  | 0, s => some s
  | k + 1, s =>
    match stepM prog N s with
    | none => none
    | some (s2, _) => runSteps prog N k s2

/-- The per-frame steps computation of lines 202-206: given the target rates
and the current accumulator, return the raw steps value and the new
accumulator. base_steps and rem_steps of lines 125-126 are inlined. -/
def schedStep (audio_hz fps acc : Nat) : Nat × Nat :=
  let steps := audio_hz / fps
  let acc2 := acc + audio_hz % fps
  if fps ≤ acc2 then (steps + 1, acc2 - fps) else (steps, acc2)

/-- Run the scheduler over a number of frames: total of the raw steps values
and the final accumulator. -/
def schedRun (audio_hz fps : Nat) : Nat → Nat → Nat × Nat
  | acc, 0 => (0, acc)
  | acc, k + 1 =>
    let p := schedStep audio_hz fps acc
    let q := schedRun audio_hz fps p.2 k
    (p.1 + q.1, q.2)

/-- Total number of machine steps actually executed over consecutive frames:
each frame runs range(max(1, steps)) iterations of the inner loop, line 209. -/
def schedExecSum (audio_hz fps : Nat) : Nat → Nat → Nat
  | _, 0 => 0
  | acc, k + 1 =>
    let p := schedStep audio_hz fps acc
    max 1 p.1 + schedExecSum audio_hz fps p.2 k

/-- collections.deque with a maxlen bound, holding integers: append on a
full deque silently evicts elements from the left. -/
structure BDeque where
  maxlen : Nat
  data : List Int

deriving instance DecidableEq for BDeque

/-- deque.append under a maxlen bound. -/
def BDeque.append (d : BDeque) (x : Int) : BDeque :=
  let d2 := d.data ++ [x]
  if d.maxlen < d2.length then ⟨d.maxlen, d2.drop (d2.length - d.maxlen)⟩
  else ⟨d.maxlen, d2⟩

/-- deque.popleft; none models the IndexError raised on an empty deque. -/
def BDeque.popleft (d : BDeque) : Option (Int × BDeque) :=
  match d.data with
  | [] => none
  | x :: xs => some (x, ⟨d.maxlen, xs⟩)

/-- Delay-line construction: deque([0], maxlen=1) when the delay is <= 0,
deque([0]*ds, maxlen=ds) otherwise (lines 110 and 148-151). -/
def mkDelayLine (delay_samples : Int) : BDeque :=
  if delay_samples ≤ 0 then ⟨1, [0]⟩
  else ⟨delay_samples.toNat, List.replicate delay_samples.toNat 0⟩

/-- The synthesizer access to the delay line: delay_line.append(w_now)
followed by R = delay_line.popleft(), lines 221-222. -/
def pushPop (d : BDeque) (x : Int) : Option (Int × BDeque) :=
  (BDeque.append d x).popleft

/-- Iterate pushPop over a list of pushed values, collecting the popped
outputs in order. -/
def pushPopRun : BDeque → List Int → Option (List Int × BDeque)
  | d, [] => some ([], d)
  | d, x :: xs =>
    match pushPop d x with
    | none => none
    | some (y, d2) =>
      match pushPopRun d2 xs with
      | none => none
      | some (ys, d3) => some (y :: ys, d3)

/-- The mutable delay knob state captured by set_delay: the nominal
delay_samples value and the delay_line deque. -/
structure DelayKnob where
  delay_samples : Int
  delay_line : BDeque

deriving instance DecidableEq for DelayKnob

/-- set_delay, lines 142-151, with MIN_DELAY = 0 and MAX_DELAY = audio_hz
from lines 108-109. -/
def set_delay (audio_hz : Int) (st : DelayKnob) (new_delay : Int) : DelayKnob :=
  let nd := max 0 (min audio_hz new_delay)
  if nd = st.delay_samples then st
  else { delay_samples := nd, delay_line := mkDelayLine nd }

/-- The playback decision for one sealed chunk returns either play (start
the channel now) or queue (enqueue behind the playing chunk). -/
inductive AudioAction where
  | play
  | queue

deriving instance DecidableEq for AudioAction

/-- The priming and steady-state bookkeeping of lines 166-168. -/
structure DriverState where
  started_audio : Bool
  prime_count : Nat

deriving instance DecidableEq for DriverState

def PRIME_CHUNKS : Nat := 3

/-- The playback driver decision for one sealed chunk, lines 243-257. -/
def driverStep (s : DriverState) (busy : Bool) : AudioAction × DriverState :=
  if s.started_audio = false then
    let act := if s.prime_count = 0 then AudioAction.play else AudioAction.queue
    let pc2 := s.prime_count + 1
    (act, ⟨decide (PRIME_CHUNKS ≤ pc2), pc2⟩)
  else
    (if busy = true then AudioAction.queue else AudioAction.play, s)

/-- Concrete rule source: a fully validated two-row program whose rules all
jump to the undeclared control state 2. -/
def src4 : CsvSource :=
  { fileExists := true
    fieldnames := ["pc", "read", "write", "move", "next_pc"]
    rows := [⟨"1", "0", "0", "R", "2"⟩, ⟨"1", "1", "1", "R", "2"⟩] }

/-- Concrete rule source whose single row is valid in every respect except
that its pc field is not an integer literal, so int(row["pc"]) raises. -/
def srcBadInt : CsvSource :=
  { fileExists := true
    fieldnames := ["pc", "read", "write", "move", "next_pc"]
    rows := [⟨"abc", "0", "1", "R", "1"⟩] }

/-- The program dict load_program builds from src4. -/
def prog4 : Program := [((1, 1), ⟨1, 1, 2⟩), ((1, 0), ⟨0, 1, 2⟩)]

/-- The machine state reached one step after reset under prog4 with N = 4. -/
def s4bad : MachineState := ⟨[0, 1, 0, 0], 1, 2, 1⟩

/-- Concrete program whose rules write back the symbol they read. -/
def prog5 : Program := [((1, 0), ⟨0, 1, 1⟩), ((1, 1), ⟨1, 1, 1⟩)]

/-- Frame effect of one machine step: the post tape is the pre tape with the
cell at the pre-step head set to the written symbol (hence every other cell
is unchanged), the step counter grows by exactly one, and the emitted event
carries the pre-write value of the head cell as symbol_read. -/
def stepFrameEffect (s s2 : MachineState) (ev : StepEvent) : Prop :=
  s2.tape = s.tape.set s.i ev.symbol_written ∧
  (∀ j, j ≠ s.i → s2.tape.get? j = s.tape.get? j) ∧
  s2.cycle = s.cycle + 1 ∧
  s.tape.get? s.i = some ev.symbol_read

/-! List access helper lemmas. -/

lemma get?_replicate_lt {α : Type} (a : α) :
    ∀ (N j : Nat), j < N → (List.replicate N a).get? j = some a
  | 0, _, h => absurd h (by omega)
  | _ + 1, 0, _ => rfl
  | N + 1, j + 1, h => get?_replicate_lt a N j (by omega)

lemma get?_set_self {α : Type} (a : α) :
    ∀ (l : List α) (i : Nat), i < l.length → (l.set i a).get? i = some a
  | [], _, h => absurd h (by simp)
  | _ :: _, 0, _ => rfl
  | _ :: xs, i + 1, h => get?_set_self a xs i (by simpa using h)

lemma get?_set_ne {α : Type} (a : α) :
    ∀ (l : List α) (i j : Nat), i ≠ j → (l.set i a).get? j = l.get? j
  | [], _, _, _ => rfl
  | _ :: _, 0, 0, h => absurd rfl h
  | _ :: _, 0, _ + 1, _ => rfl
  | _ :: _, _ + 1, 0, _ => rfl
  | _ :: xs, i + 1, j + 1, h => get?_set_ne a xs i j (by omega)

/-! C2: delay-line delay law. -/

/-- C2: refuted on the code. With capacity D = 5 the delay line is
initialized to five zeros, yet pushing [1,2,3,4,5,6,7] through the
append-then-popleft pair pops [0,0,0,0,1,2,3]: only D-1 leading zeros and a
delay of D-1 samples, because the first append on the full bounded deque
evicts the oldest zero before the explicit popleft. The claim expected
[0,0,0,0,0,1,2]. -/
theorem C2_delay_line_evaluation :
    (pushPopRun (mkDelayLine 5) [1, 2, 3, 4, 5, 6, 7]).map (fun p => p.1) =
      some [0, 0, 0, 0, 1, 2, 3] ∧
    ([0, 0, 0, 0, 1, 2, 3] : List Int) ≠ [0, 0, 0, 0, 0, 1, 2] := by decide

/-! C3: delay-line length invariant. -/

/-- C3: refuted on the code. Immediately after reinitialization with D = 3
the delay line does hold 3 elements, but a single push-then-pop leaves only
2 elements: the bounded append evicts one element and popleft removes a
second, so the exact-length invariant breaks on the first synthesizer call. -/
theorem C3_length_evaluation :
    (mkDelayLine 3).data.length = 3 ∧
    (pushPop (mkDelayLine 3) 7).map (fun p => p.2.data.length) = some 2 ∧
    (2 : Nat) ≠ 3 := by decide

/-! C6: reset determinism. -/

/-- C6: for every prior machine state and every tape length N >= 1,
reset_machine yields the all-zero tape with a single 1 at index N / 4,
head 0, control state 1 and step counter 0. -/
theorem C6_reset_machine (s : MachineState) (N : Nat) (hN : 1 ≤ N) :
    (reset_machine s N).tape.length = N ∧
    (reset_machine s N).tape.get? (N / 4) = some 1 ∧
    (∀ j, j < N → j ≠ N / 4 → (reset_machine s N).tape.get? j = some 0) ∧
    (reset_machine s N).i = 0 ∧ (reset_machine s N).pc = 1 ∧
    (reset_machine s N).cycle = 0 := by
  have hdiv : N / 4 < N := Nat.div_lt_self (by omega) (by omega)
  refine ⟨by simp [reset_machine], ?_, ?_, rfl, rfl, rfl⟩
  · exact get?_set_self 1 (List.replicate N 0) (N / 4) (by simpa using hdiv)
  · intro j hj hne
    show ((List.replicate N 0).set (N / 4) 1).get? j = some 0
    rw [get?_set_ne 1 (List.replicate N 0) (N / 4) j (fun h => hne h.symm)]
    exact get?_replicate_lt 0 N j hj

/-- Witness for C6 at N = 8 from an arbitrary dirty prior state. -/
theorem C6_witness :
    (reset_machine ⟨[5], 2, 7, 9⟩ 8).tape.length = 8 ∧
    (reset_machine ⟨[5], 2, 7, 9⟩ 8).tape.get? (8 / 4) = some 1 ∧
    (∀ j, j < 8 → j ≠ 8 / 4 → (reset_machine ⟨[5], 2, 7, 9⟩ 8).tape.get? j = some 0) ∧
    (reset_machine ⟨[5], 2, 7, 9⟩ 8).i = 0 ∧ (reset_machine ⟨[5], 2, 7, 9⟩ 8).pc = 1 ∧
    (reset_machine ⟨[5], 2, 7, 9⟩ 8).cycle = 0 :=
  C6_reset_machine ⟨[5], 2, 7, 9⟩ 8 (by decide)

/-! C7: tape wraparound. -/

/-- C7: for every N >= 1, head in [0, N) and move in {-1, 0, 1}, the head
update lands in [0, N); head 0 with move -1 goes to N - 1 and head N - 1
with move +1 goes to 0. -/
theorem C7_head_wraparound (N tc : Nat) (mv : Int) (hN : 0 < N) (htc : tc < N)
    (hmv : mv = -1 ∨ mv = 0 ∨ mv = 1) :
    headUpdate tc mv N < N ∧
    (tc = 0 → mv = -1 → headUpdate tc mv N = N - 1) ∧
    (tc = N - 1 → mv = 1 → headUpdate tc mv N = 0) := by
  have hNpos : (0 : Int) < (N : Int) := by exact_mod_cast hN
  have hNe : (N : Int) ≠ 0 := ne_of_gt hNpos
  refine ⟨?_, ?_, ?_⟩
  · have h1 : ((tc : Int) + mv) % (N : Int) < N := Int.emod_lt_of_pos _ hNpos
    have h2 : 0 ≤ ((tc : Int) + mv) % (N : Int) := Int.emod_nonneg _ hNe
    unfold headUpdate
    omega
  · rintro rfl rfl
    unfold headUpdate
    simp only [Nat.cast_zero]
    have h4 : ((0 : Int) + -1) = ((N : Int) - 1) + (N : Int) * (-1) := by ring
    rw [h4, Int.add_mul_emod_self_left, Int.emod_eq_of_lt (by omega) (by omega)]
    omega
  · rintro rfl rfl
    unfold headUpdate
    have h5 : ((N - 1 : Nat) : Int) + 1 = (N : Int) := by omega
    rw [h5, Int.emod_self]
    rfl

/-- Witness for C7 at N = 4, head 0, move -1. -/
theorem C7_witness :
    headUpdate 0 (-1) 4 < 4 ∧
    ((0 : Nat) = 0 → (-1 : Int) = -1 → headUpdate 0 (-1) 4 = 4 - 1) ∧
    ((0 : Nat) = 4 - 1 → (-1 : Int) = 1 → headUpdate 0 (-1) 4 = 0) :=
  C7_head_wraparound 4 0 (-1) (by decide) (by decide) (Or.inl rfl)

/-! C9: playback driver steady state. -/

/-- C9: once the driver is in steady state, a sealed chunk is enqueued
exactly when the device is busy and played immediately when it is not, and
the driver state is left unchanged: it never returns to the priming phase,
so the chunks following an underrun again follow enqueue-when-busy. -/
theorem C9_steady_state (s : DriverState) (busy : Bool) (h : s.started_audio = true) :
    (driverStep s busy).1 = (if busy = true then AudioAction.queue else AudioAction.play) ∧
    (driverStep s busy).2 = s ∧
    (driverStep s busy).2.started_audio = true := by
  unfold driverStep
  rw [h]
  simp [h]

/-- Witness for C9: an underrun chunk (busy = false) in steady state is
played immediately and the driver stays in steady state. -/
theorem C9_witness :
    (driverStep ⟨true, 3⟩ false).1 = (if false = true then AudioAction.queue else AudioAction.play) ∧
    (driverStep ⟨true, 3⟩ false).2 = ⟨true, 3⟩ ∧
    (driverStep ⟨true, 3⟩ false).2.started_audio = true :=
  C9_steady_state ⟨true, 3⟩ false rfl

/-! C10: set_delay frame effect. -/

/-- C10: set_delay leaves the knob state (value and delay line, contents
included) completely unchanged when the clamped request equals the current
delay_samples, and replaces the delay line with a zero-filled one of the new
capacity exactly when the clamped request differs. -/
theorem C10_set_delay (hz : Int) (st : DelayKnob) (v : Int) :
    (max 0 (min hz v) = st.delay_samples → set_delay hz st v = st) ∧
    (max 0 (min hz v) ≠ st.delay_samples →
      (set_delay hz st v).delay_samples = max 0 (min hz v) ∧
      (set_delay hz st v).delay_line = mkDelayLine (max 0 (min hz v)) ∧
      (set_delay hz st v).delay_line.data =
        List.replicate (set_delay hz st v).delay_line.maxlen 0) := by
  constructor
  · intro h
    simp only [set_delay]
    rw [if_pos h]
  · intro h
    simp only [set_delay]
    rw [if_neg h]
    refine ⟨rfl, rfl, ?_⟩
    show (mkDelayLine (max 0 (min hz v))).data = List.replicate (mkDelayLine (max 0 (min hz v))).maxlen 0
    unfold mkDelayLine
    split
    · rfl
    · rfl

/-- Witness for C10: with audio rate 100 and current delay 5, requesting 5
leaves everything untouched, requesting 7 swaps in a zero-filled line. -/
theorem C10_witness :
    set_delay 100 ⟨5, ⟨5, [1, 2, 3, 4, 5]⟩⟩ 5 = ⟨5, ⟨5, [1, 2, 3, 4, 5]⟩⟩ ∧
    ((set_delay 100 ⟨5, ⟨5, [1, 2, 3, 4, 5]⟩⟩ 7).delay_samples = max 0 (min 100 7) ∧
     (set_delay 100 ⟨5, ⟨5, [1, 2, 3, 4, 5]⟩⟩ 7).delay_line = mkDelayLine (max 0 (min 100 7)) ∧
     (set_delay 100 ⟨5, ⟨5, [1, 2, 3, 4, 5]⟩⟩ 7).delay_line.data =
       List.replicate (set_delay 100 ⟨5, ⟨5, [1, 2, 3, 4, 5]⟩⟩ 7).delay_line.maxlen 0) :=
  ⟨(C10_set_delay 100 ⟨5, ⟨5, [1, 2, 3, 4, 5]⟩⟩ 5).1 (by decide),
   (C10_set_delay 100 ⟨5, ⟨5, [1, 2, 3, 4, 5]⟩⟩ 7).2 (by decide)⟩

/-! C1: scheduler rate exactness. -/

lemma schedStep_inv (hz fps acc : Nat) (hfps : 0 < fps) (hacc : acc < fps) :
    (schedStep hz fps acc).2 < fps ∧
    fps * (schedStep hz fps acc).1 + (schedStep hz fps acc).2 = hz + acc := by
  simp only [schedStep]
  have hdm : fps * (hz / fps) + hz % fps = hz := Nat.div_add_mod hz fps
  have hrem : hz % fps < fps := Nat.mod_lt _ hfps
  by_cases hc : fps ≤ acc + hz % fps
  · rw [if_pos hc]
    refine ⟨by omega, ?_⟩
    rw [Nat.mul_succ]
    omega
  · rw [if_neg hc]
    refine ⟨by omega, ?_⟩
    show fps * (hz / fps) + (acc + hz % fps) = hz + acc
    omega

lemma schedRun_inv (hz fps : Nat) (hfps : 0 < fps) :
    ∀ (k acc : Nat), acc < fps →
      (schedRun hz fps acc k).2 < fps ∧
      fps * (schedRun hz fps acc k).1 + (schedRun hz fps acc k).2 = k * hz + acc := by
  intro k
  induction k with
  | zero =>
    intro acc hacc
    simpa [schedRun] using hacc
  | succ n ih =>
    intro acc hacc
    obtain ⟨h1, h2⟩ := schedStep_inv hz fps acc hfps hacc
    obtain ⟨h3, h4⟩ := ih (schedStep hz fps acc).2 h1
    simp only [schedRun]
    refine ⟨h3, ?_⟩
    rw [Nat.mul_add, Nat.succ_mul]
    omega

lemma schedStep_one_le (hz fps acc : Nat) (hfps : 0 < fps) (hle : fps ≤ hz) :
    1 ≤ (schedStep hz fps acc).1 := by
  have hbase : 1 ≤ hz / fps := (Nat.one_le_div_iff hfps).mpr hle
  simp only [schedStep]
  split
  · exact le_trans hbase (Nat.le_succ _)
  · exact hbase

lemma schedExec_eq_run (hz fps : Nat) (hfps : 0 < fps) (hle : fps ≤ hz) :
    ∀ (k acc : Nat), schedExecSum hz fps acc k = (schedRun hz fps acc k).1 := by
  intro k
  induction k with
  | zero => intro acc; rfl
  | succ n ih =>
    intro acc
    simp only [schedExecSum, schedRun]
    rw [Nat.max_eq_right (schedStep_one_le hz fps acc hfps hle), ih]

/-- C1 (amended): whenever the frame rate is positive and does not exceed
the audio rate — so that the floor to one step per frame never engages —
the number of machine steps executed over fps consecutive frames is exactly
audio_hz, from any starting accumulator phase in [0, fps). -/
theorem C1_rate_exact (hz fps acc : Nat) (hfps : 0 < fps) (hle : fps ≤ hz)
    (hacc : acc < fps) : schedExecSum hz fps acc fps = hz := by
  obtain ⟨haF, h1⟩ := schedRun_inv hz fps hfps fps acc hacc
  rw [schedExec_eq_run hz fps hfps hle]
  have hm : (fps * (schedRun hz fps acc fps).1 + (schedRun hz fps acc fps).2) % fps =
      (fps * hz + acc) % fps := by rw [h1]
  rw [Nat.mul_add_mod, Nat.mul_add_mod, Nat.mod_eq_of_lt haF, Nat.mod_eq_of_lt hacc] at hm
  rw [hm] at h1
  exact Nat.eq_of_mul_eq_mul_left hfps (Nat.add_right_cancel h1)

/-- Witness for C1 at audio rate 3, frame rate 2, starting phase 1. -/
theorem C1_witness : schedExecSum 3 2 1 2 = 3 :=
  C1_rate_exact 3 2 1 (by decide) (by decide) (by decide)

/-- C1 counterexample to the claim as stated: with the degenerate but
positive configuration audio rate 1 and frame rate 2, starting phase 0, the
floored per-frame step counts sum to 2 over 2 consecutive frames, not to
the audio rate 1. -/
theorem C1_counterexample : schedExecSum 1 2 0 2 = 2 ∧ (2 : Nat) ≠ 1 := by decide

/-! C5: step atomicity / frame effect. -/

/-- C5 (amended): after one successful step, at most one tape cell changed:
the post tape is the pre tape with the cell at the pre-step head set to the
written symbol, so every other cell is unchanged; the step counter grows by
exactly one; and the emitted event carries as symbol_read the tape value at
the pre-step head before the write. -/
theorem C5_step_frame_effect (prog : Program) (N : Nat) (s s2 : MachineState)
    (ev : StepEvent) (h : stepM prog N s = some (s2, ev)) :
    stepFrameEffect s s2 ev := by
  unfold stepM at h
  split at h
  next => cases h
  next rd hg =>
    split at h
    next => cases h
    next rule hl =>
      simp only [Option.some.injEq, Prod.mk.injEq] at h
      obtain ⟨hs, he⟩ := h
      subst hs
      subst he
      refine ⟨rfl, ?_, rfl, hg⟩
      intro j hj
      exact get?_set_ne rule.write s.tape s.i j (fun hh => hj hh.symm)

/-- Witness for C5: one concrete step of prog5 from reset with N = 4. -/
theorem C5_witness :
    stepFrameEffect (mkInitial 4) ⟨[0, 1, 0, 0], 1, 1, 1⟩ ⟨0, 0, 0, 0⟩ :=
  C5_step_frame_effect prog5 4 (mkInitial 4) ⟨[0, 1, 0, 0], 1, 1, 1⟩ ⟨0, 0, 0, 0⟩ (by decide)

/-- C5 counterexample to the claim as stated: under prog5 the rule for
(pc 1, read 0) writes back a 0, so the step from reset with N = 4 succeeds
yet leaves the tape identical — zero cells changed, not exactly one. -/
theorem C5_counterexample :
    (stepM prog5 4 (mkInitial 4)).isSome = true ∧
    (stepM prog5 4 (mkInitial 4)).map (fun p => p.1.tape) = some (mkInitial 4).tape := by
  decide

/-! C8: load-time validation, and C4: runtime totality. -/

/-- Boolean success test for an Except value. -/
def isOkE {α : Type} : Except String α → Bool
  | Except.ok _ => true
  | Except.error _ => false

lemma parseMove_none_iff (mv : String) : parseMove mv = none ↔ moveOk mv = false := by
  unfold parseMove moveOk
  by_cases h1 : normMove mv = "L" <;> by_cases h2 : normMove mv = "R" <;>
    by_cases h3 : normMove mv = "S" <;> simp [h1, h2, h3]

lemma parseRow_eq_some (r : CsvRow) (a b c d : Int) :
    parseRow r = some (a, b, c, d) ↔
      pyInt r.pc = some a ∧ pyInt r.read = some b ∧
      pyInt r.write = some c ∧ pyInt r.next_pc = some d := by
  unfold parseRow
  cases h1 : pyInt r.pc <;> cases h2 : pyInt r.read <;>
    cases h3 : pyInt r.write <;> cases h4 : pyInt r.next_pc <;>
      simp [h1, h2, h3, h4]

lemma rowOk_true_parts (r : CsvRow) (h : rowOk r = true) :
    ∃ a b c d, parseRow r = some (a, b, c, d) ∧
      moveOk r.move = true ∧ writeOk c = true := by
  cases hq : parseRow r with
  | none =>
    have hfalse : rowOk r = false := by simp [rowOk, hq]
    rw [hfalse] at h
    cases h
  | some q =>
    obtain ⟨a, b, c, d⟩ := q
    have h2 : (moveOk r.move && writeOk c) = true := by
      have he : rowOk r = (moveOk r.move && writeOk c) := by simp [rowOk, hq]
      rw [← he]
      exact h
    rw [Bool.and_eq_true] at h2
    exact ⟨a, b, c, d, rfl, h2.1, h2.2⟩

lemma rowOk_false_cases (r : CsvRow) (h : rowOk r = false) :
    parseRow r = none ∨
    (∃ a b c d, parseRow r = some (a, b, c, d) ∧
      (moveOk r.move = false ∨ writeOk c = false)) := by
  cases hq : parseRow r with
  | none => exact Or.inl rfl
  | some q =>
    obtain ⟨a, b, c, d⟩ := q
    have h2 : (moveOk r.move && writeOk c) = false := by
      have he : rowOk r = (moveOk r.move && writeOk c) := by simp [rowOk, hq]
      rw [← he]
      exact h
    refine Or.inr ⟨a, b, c, d, rfl, ?_⟩
    cases hm : moveOk r.move
    · exact Or.inl rfl
    · cases hw : writeOk c
      · exact Or.inr rfl
      · rw [hm, hw] at h2
        cases h2

lemma rowKey_pyInt (r : CsvRow) (pc rd : Int) (h : rowKey r = some (pc, rd)) :
    pyInt r.pc = some pc ∧ pyInt r.read = some rd := by
  cases hq : parseRow r with
  | none => simp [rowKey, hq] at h
  | some q =>
    obtain ⟨a, b, c, d⟩ := q
    have h2 : (a, b) = (pc, rd) := by
      have he : rowKey r = some (a, b) := by simp [rowKey, hq]
      rw [he] at h
      exact Option.some.inj h
    rw [Prod.mk.injEq] at h2
    obtain ⟨rfl, rfl⟩ := h2
    obtain ⟨hpa, hrd, _, _⟩ := (parseRow_eq_some r a b c d).mp hq
    exact ⟨hpa, hrd⟩

lemma rowPcOpt_pyInt (r : CsvRow) (pc : Int) (h : rowPcOpt r = some pc) :
    pyInt r.pc = some pc := by
  cases hq : parseRow r with
  | none => simp [rowPcOpt, hq] at h
  | some q =>
    obtain ⟨a, b, c, d⟩ := q
    have ha : a = pc := by
      have he : rowPcOpt r = some a := by simp [rowPcOpt, hq]
      rw [he] at h
      exact Option.some.inj h
    subst ha
    exact ((parseRow_eq_some r a b c d).mp hq).1

lemma processRows_isOk (rows : List CsvRow) :
    ∀ (prog : Program) (pcs : List Int),
      isOkE (processRows rows prog pcs) = rows.all rowOk := by
  induction rows with
  | nil => intro prog pcs; rfl
  | cons r rs ih =>
    intro prog pcs
    unfold processRows
    cases hq : parseRow r with
    | none =>
      have hro : rowOk r = false := by simp [rowOk, hq]
      simp [isOkE, hro]
    | some q =>
      obtain ⟨pc, read, write, next_pc⟩ := q
      have hro : rowOk r = (moveOk r.move && writeOk write) := by simp [rowOk, hq]
      cases hpm : parseMove r.move with
      | none =>
        have hmo : moveOk r.move = false := (parseMove_none_iff r.move).mp hpm
        simp [isOkE, hro, hmo]
      | some mv =>
        have hmo : moveOk r.move = true := by
          cases hq2 : moveOk r.move
          · rw [(parseMove_none_iff r.move).mpr hq2] at hpm; cases hpm
          · rfl
        by_cases hw : writeOk write = true
        · simp [hro, hmo, hw, ih]
        · have hw2 : writeOk write = false := by simpa using hw
          simp [isOkE, hro, hmo, hw2]

lemma progContains_cons (p : Program) (k k2 : ProgKey) (rl : Rule) :
    progContains ((k, rl) :: p) k2 = true ↔ k = k2 ∨ progContains p k2 = true := by
  simp [progContains]

lemma processRows_ok_mem (rows : List CsvRow) :
    ∀ (prog0 : Program) (pcs0 : List Int) (prog : Program) (pcs : List Int),
      processRows rows prog0 pcs0 = Except.ok (prog, pcs) →
      ((∀ k, progContains prog k = true ↔
          (progContains prog0 k = true ∨ ∃ r ∈ rows, rowKey r = some k)) ∧
       (∀ p, p ∈ pcs ↔ p ∈ pcs0 ∨ ∃ r ∈ rows, rowPcOpt r = some p)) := by
  induction rows with
  | nil =>
    intro prog0 pcs0 prog pcs h
    unfold processRows at h
    simp only [Except.ok.injEq, Prod.mk.injEq] at h
    obtain ⟨rfl, rfl⟩ := h
    exact ⟨fun k => by simp, fun p => by simp⟩
  | cons r rs ih =>
    intro prog0 pcs0 prog pcs h
    unfold processRows at h
    split at h
    next => cases h
    next pc read write next_pc hq =>
      split at h
      next => cases h
      next mv hpm =>
        split at h
        next hw =>
          obtain ⟨hk, hp⟩ := ih _ _ _ _ h
          have hkey : rowKey r = some (pc, read) := by simp [rowKey, hq]
          have hpcv : rowPcOpt r = some pc := by simp [rowPcOpt, hq]
          constructor
          · intro k
            rw [hk k]
            simp only [progInsert]
            rw [progContains_cons]
            constructor
            · rintro ((heq | hc) | ⟨r2, hr2, hkeq⟩)
              · exact Or.inr ⟨r, List.mem_cons_self r rs, by rw [hkey, heq]⟩
              · exact Or.inl hc
              · exact Or.inr ⟨r2, List.mem_cons_of_mem r hr2, hkeq⟩
            · rintro (hc | ⟨r2, hr2, hkeq⟩)
              · exact Or.inl (Or.inr hc)
              · rcases List.mem_cons.mp hr2 with rfl | hmem
                · rw [hkey] at hkeq
                  exact Or.inl (Or.inl (Option.some.inj hkeq))
                · exact Or.inr ⟨r2, hmem, hkeq⟩
          · intro p
            rw [hp p]
            constructor
            · rintro (hin | ⟨r2, hr2, hkeq⟩)
              · rcases List.mem_cons.mp hin with rfl | hmem
                · exact Or.inr ⟨r, List.mem_cons_self r rs, hpcv⟩
                · exact Or.inl hmem
              · exact Or.inr ⟨r2, List.mem_cons_of_mem r hr2, hkeq⟩
            · rintro (hin | ⟨r2, hr2, hkeq⟩)
              · exact Or.inl (List.mem_cons_of_mem pc hin)
              · rcases List.mem_cons.mp hr2 with rfl | hmem
                · rw [hpcv] at hkeq
                  have hpe := Option.some.inj hkeq
                  exact Or.inl (by rw [← hpe]; exact List.mem_cons_self _ _)
                · exact Or.inr ⟨r2, hmem, hkeq⟩
        next hw => cases h

lemma hasColumns_iff (fns : List String) :
    hasColumns fns = true ↔ ∀ c ∈ requiredFields, c ∈ fns := by
  simp [hasColumns, List.all_eq_true]

/-- C8 (amended): load_program fails exactly when the file is missing, a
required column is absent, some row has an integer field on which the
int(..) conversion raises, some row has a move token outside {L,R,S} (after
strip and upper), some row has a write value that converts to an integer
outside {0,1,2}, or some control state appearing (as a converted pc) in a
row lacks a row for read symbol 0 or for read symbol 1; in particular a
state with only its read = 0 row makes the load fail. -/
theorem C8_load_validation (src : CsvSource) :
    isOkE (load_program src) = false ↔
      (src.fileExists = false ∨
       (∃ c ∈ requiredFields, c ∉ src.fieldnames) ∨
       (∃ r ∈ src.rows, parseRow r = none) ∨
       (∃ r ∈ src.rows, moveOk r.move = false) ∨
       (∃ r ∈ src.rows, ∃ w : Int, pyInt r.write = some w ∧ writeOk w = false) ∨
       (∃ r ∈ src.rows, ∃ pc : Int, pyInt r.pc = some pc ∧ ∃ b : Int, (b = 0 ∨ b = 1) ∧
         ∀ r2 ∈ src.rows, ¬ (pyInt r2.pc = some pc ∧ pyInt r2.read = some b))) := by
  by_cases hex : src.fileExists = false
  · have hL : isOkE (load_program src) = false := by
      unfold load_program; rw [if_pos hex]; rfl
    exact ⟨fun _ => Or.inl hex, fun _ => hL⟩
  · have hex2 : src.fileExists = true := by simpa using hex
    by_cases hcols : hasColumns src.fieldnames = false
    · have hL : isOkE (load_program src) = false := by
        unfold load_program; rw [if_neg hex, if_pos hcols]; rfl
      have hrhs : ∃ c ∈ requiredFields, c ∉ src.fieldnames := by
        by_contra hc
        push_neg at hc
        rw [(hasColumns_iff _).mpr hc] at hcols
        cases hcols
      exact ⟨fun _ => Or.inr (Or.inl hrhs), fun _ => hL⟩
    · have hcols2 : hasColumns src.fieldnames = true := by simpa using hcols
      have hnocol : ¬ (∃ c ∈ requiredFields, c ∉ src.fieldnames) := by
        rw [hasColumns_iff] at hcols2
        push_neg
        exact hcols2
      by_cases hrows : src.rows.all rowOk = true
      · have hpis := processRows_isOk src.rows [] []
        rw [hrows] at hpis
        cases hpr : processRows src.rows [] [] with
        | error e => rw [hpr] at hpis; cases hpis
        | ok pr =>
          obtain ⟨prog, pcs⟩ := pr
          obtain ⟨hk, hp⟩ := processRows_ok_mem src.rows [] [] prog pcs hpr
          have hnoparse : ¬ (∃ r ∈ src.rows, parseRow r = none) := by
            rintro ⟨r, hr, hqn⟩
            obtain ⟨a, b, c, d, hqs, _, _⟩ :=
              rowOk_true_parts r (List.all_eq_true.mp hrows r hr)
            rw [hqs] at hqn
            cases hqn
          have hnomove : ¬ (∃ r ∈ src.rows, moveOk r.move = false) := by
            rintro ⟨r, hr, hmo⟩
            obtain ⟨a, b, c, d, _, hmt, _⟩ :=
              rowOk_true_parts r (List.all_eq_true.mp hrows r hr)
            rw [hmt] at hmo
            cases hmo
          have hnowrite : ¬ (∃ r ∈ src.rows, ∃ w : Int,
              pyInt r.write = some w ∧ writeOk w = false) := by
            rintro ⟨r, hr, w, hw, hwf⟩
            obtain ⟨a, b, c, d, hqs, _, hwt⟩ :=
              rowOk_true_parts r (List.all_eq_true.mp hrows r hr)
            obtain ⟨_, _, hwc, _⟩ := (parseRow_eq_some r a b c d).mp hqs
            rw [hwc] at hw
            rw [← Option.some.inj hw] at hwf
            rw [hwt] at hwf
            cases hwf
          have hload : load_program src =
              (if pcs.all (fun pc => progContains prog (pc, 0) && progContains prog (pc, 1)) = true
               then Except.ok prog else Except.error "Missing rule") := by
            unfold load_program
            rw [if_neg hex, if_neg hcols, hpr]
          by_cases htot :
              pcs.all (fun pc => progContains prog (pc, 0) && progContains prog (pc, 1)) = true
          · have hL : ¬ (isOkE (load_program src) = false) := by
              rw [hload, if_pos htot]; simp [isOkE]
            constructor
            · intro hf; exact absurd hf hL
            · rintro (h1 | h2 | h3 | h4 | h5 | h6)
              · exact absurd h1 (by simp [hex2])
              · exact absurd h2 hnocol
              · exact absurd h3 hnoparse
              · exact absurd h4 hnomove
              · exact absurd h5 hnowrite
              · obtain ⟨r, hr, pc, hpc, b, hb, hnone⟩ := h6
                obtain ⟨a, b2, c, d, hqs, _, _⟩ :=
                  rowOk_true_parts r (List.all_eq_true.mp hrows r hr)
                obtain ⟨hpa, _, _, _⟩ := (parseRow_eq_some r a b2 c d).mp hqs
                rw [hpa] at hpc
                obtain rfl := Option.some.inj hpc
                have hpcs : a ∈ pcs := (hp a).mpr (Or.inr ⟨r, hr, by simp [rowPcOpt, hqs]⟩)
                have hck := List.all_eq_true.mp htot a hpcs
                rw [Bool.and_eq_true] at hck
                have hcont : progContains prog (a, b) = true := by
                  rcases hb with rfl | rfl
                  · exact hck.1
                  · exact hck.2
                rw [hk (a, b)] at hcont
                rcases hcont with hc0 | ⟨r2, hr2, hkeq⟩
                · simp [progContains] at hc0
                · obtain ⟨hp2, hr2d⟩ := rowKey_pyInt r2 a b hkeq
                  exact (hnone r2 hr2 ⟨hp2, hr2d⟩).elim
          · have hL : isOkE (load_program src) = false := by
              rw [hload, if_neg htot]; rfl
            have hmiss : ∃ pc ∈ pcs,
                ¬ ((progContains prog (pc, 0) && progContains prog (pc, 1)) = true) := by
              by_contra hc
              push_neg at hc
              exact htot (List.all_eq_true.mpr hc)
            obtain ⟨pc, hpc, hmissb⟩ := hmiss
            have hb : progContains prog (pc, 0) = false ∨ progContains prog (pc, 1) = false := by
              cases hA : progContains prog (pc, 0)
              · exact Or.inl rfl
              · cases hB : progContains prog (pc, 1)
                · exact Or.inr rfl
                · exact absurd (by rw [hA, hB]; rfl) hmissb
            have hpcrow : ∃ r ∈ src.rows, rowPcOpt r = some pc := by
              rcases (hp pc).mp hpc with hin | hgood
              · cases hin
              · exact hgood
            obtain ⟨r, hr, hrpc⟩ := hpcrow
            have hnokey : ∀ b : Int, progContains prog (pc, b) = false →
                ∀ r2 ∈ src.rows, ¬ (pyInt r2.pc = some pc ∧ pyInt r2.read = some b) := by
              intro b hfalse r2 hr2 hand
              obtain ⟨a2, b2, c2, d2, hqs2, _, _⟩ :=
                rowOk_true_parts r2 (List.all_eq_true.mp hrows r2 hr2)
              obtain ⟨hpa2, hrd2, _, _⟩ := (parseRow_eq_some r2 a2 b2 c2 d2).mp hqs2
              have ha2 : a2 = pc := by
                rw [hpa2] at hand
                exact Option.some.inj hand.1
              have hb2 : b2 = b := by
                rw [hrd2] at hand
                exact Option.some.inj hand.2
              have hkey2 : rowKey r2 = some (pc, b) := by
                simp [rowKey, hqs2, ha2, hb2]
              have hcontr : progContains prog (pc, b) = true :=
                (hk (pc, b)).mpr (Or.inr ⟨r2, hr2, hkey2⟩)
              rw [hcontr] at hfalse
              cases hfalse
            have hrhs : ∃ r ∈ src.rows, ∃ pc2 : Int, pyInt r.pc = some pc2 ∧
                ∃ b : Int, (b = 0 ∨ b = 1) ∧
                ∀ r2 ∈ src.rows, ¬ (pyInt r2.pc = some pc2 ∧ pyInt r2.read = some b) := by
              refine ⟨r, hr, pc, rowPcOpt_pyInt r pc hrpc, ?_⟩
              rcases hb with hmiss0 | hmiss1
              · exact ⟨0, Or.inl rfl, hnokey 0 hmiss0⟩
              · exact ⟨1, Or.inr rfl, hnokey 1 hmiss1⟩
            exact ⟨fun _ => Or.inr (Or.inr (Or.inr (Or.inr (Or.inr hrhs)))), fun _ => hL⟩
      · have hrows2 : src.rows.all rowOk = false := by simpa using hrows
        have hpis := processRows_isOk src.rows [] []
        rw [hrows2] at hpis
        cases hpr : processRows src.rows [] [] with
        | ok pr => rw [hpr] at hpis; cases hpis
        | error e =>
          have hL : isOkE (load_program src) = false := by
            unfold load_program; rw [if_neg hex, if_neg hcols, hpr]; rfl
          have hbad : ∃ r ∈ src.rows, rowOk r = false := by
            by_contra hc
            push_neg at hc
            have hgood : src.rows.all rowOk = true := by
              rw [List.all_eq_true]
              intro r hr
              simpa using hc r hr
            rw [hgood] at hrows2
            cases hrows2
          obtain ⟨r, hr, hro⟩ := hbad
          rcases rowOk_false_cases r hro with hqn | ⟨a, b, c, d, hqs, hmw⟩
          · exact ⟨fun _ => Or.inr (Or.inr (Or.inl ⟨r, hr, hqn⟩)), fun _ => hL⟩
          · rcases hmw with hm | hw
            · exact ⟨fun _ => Or.inr (Or.inr (Or.inr (Or.inl ⟨r, hr, hm⟩))), fun _ => hL⟩
            · have hwc : pyInt r.write = some c := ((parseRow_eq_some r a b c d).mp hqs).2.2.1
              exact ⟨fun _ => Or.inr (Or.inr (Or.inr (Or.inr (Or.inl ⟨r, hr, c, hwc, hw⟩)))),
                fun _ => hL⟩

/-- C8 counterexample to the claim as stated: srcBadInt has its file, all
required columns, a valid move token, a write value of 1 and no state
missing one of its two symbol rows, yet load_program fails, because
int("abc") on the pc field raises ValueError — a sixth failure condition
the claim omits. -/
theorem C8_counterexample :
    isOkE (load_program srcBadInt) = false ∧
    ¬ (srcBadInt.fileExists = false ∨
       (∃ c ∈ requiredFields, c ∉ srcBadInt.fieldnames) ∨
       (∃ r ∈ srcBadInt.rows, moveOk r.move = false) ∨
       (∃ r ∈ srcBadInt.rows, ∃ w : Int, pyInt r.write = some w ∧ writeOk w = false) ∨
       (∃ r ∈ srcBadInt.rows, ∃ pc : Int, pyInt r.pc = some pc ∧ ∃ b : Int, (b = 0 ∨ b = 1) ∧
         ∀ r2 ∈ srcBadInt.rows, ¬ (pyInt r2.pc = some pc ∧ pyInt r2.read = some b))) := by
  constructor
  · decide
  · rintro (h1 | h2 | h3 | h4 | h5)
    · exact absurd h1 (by decide)
    · exact absurd h2 (by decide)
    · exact absurd h3 (by decide)
    · obtain ⟨r, hr, w, hw, hwf⟩ := h4
      have hr0 : r = ⟨"abc", "0", "1", "R", "1"⟩ := by
        simpa [srcBadInt] using hr
      subst hr0
      rw [show (CsvRow.mk "abc" "0" "1" "R" "1").write = "1" from rfl] at hw
      rw [show pyInt "1" = some 1 from by decide] at hw
      rw [← Option.some.inj hw] at hwf
      exact absurd hwf (by decide)
    · obtain ⟨r, hr, pc, hpc, _⟩ := h5
      have hr0 : r = ⟨"abc", "0", "1", "R", "1"⟩ := by
        simpa [srcBadInt] using hr
      subst hr0
      rw [show (CsvRow.mk "abc" "0" "1" "R" "1").pc = "abc" from rfl] at hpc
      rw [show pyInt "abc" = (none : Option Int) from by decide] at hpc
      cases hpc

lemma load_ok_parts (src : CsvSource) (prog : Program)
    (h : load_program src = Except.ok prog) :
    ∃ pcs, processRows src.rows [] [] = Except.ok (prog, pcs) ∧
      pcs.all (fun pc => progContains prog (pc, 0) && progContains prog (pc, 1)) = true := by
  unfold load_program at h
  split at h
  next => cases h
  next hex =>
    split at h
    next => cases h
    next hcols =>
      split at h
      next e heq => cases h
      next p q heq =>
        split at h
        next htot =>
          simp only [Except.ok.injEq] at h
          subst h
          exact ⟨q, heq, htot⟩
        next => cases h

lemma progLookup_isSome (p : Program) (k : ProgKey) (h : progContains p k = true) :
    (progLookup p k).isSome = true := by
  induction p with
  | nil => simp [progContains] at h
  | cons e es ih =>
    by_cases he : e.1 = k
    · unfold progLookup
      rw [List.find?_cons_of_pos _ (by simpa using he)]
      rfl
    · have h2 : progContains es k = true := by
        simp only [progContains, List.any_cons, Bool.or_eq_true, decide_eq_true_eq] at h
        rcases h with h | h
        · exact absurd h he
        · exact h
      have h3 := ih h2
      unfold progLookup at h3 ⊢
      rw [List.find?_cons_of_neg _ (by simpa using he)]
      exact h3

/-- C4 (amended): after a successful load, the rule lookup of a step
succeeds in every machine state whose control state occurs as the converted
pc of some source row and whose symbol read is 0 or 1. Validation does not
cover states reached only through next_pc, nor cells holding a written 2,
so the guarantee does not extend to every reachable state. -/
theorem C4_lookup_total (src : CsvSource) (prog : Program) (N : Nat)
    (s : MachineState) (sym : Int)
    (hload : load_program src = Except.ok prog)
    (hread : s.tape.get? s.i = some sym)
    (hsym : sym = 0 ∨ sym = 1)
    (hpc : ∃ r ∈ src.rows, pyInt r.pc = some s.pc) :
    (stepM prog N s).isSome = true := by
  obtain ⟨pcs, hpr, hall⟩ := load_ok_parts src prog hload
  obtain ⟨hk, hp⟩ := processRows_ok_mem src.rows [] [] prog pcs hpr
  have hallok : src.rows.all rowOk = true := by
    have h0 := processRows_isOk src.rows [] []
    rw [hpr] at h0
    exact h0.symm
  obtain ⟨r, hr, hrpc⟩ := hpc
  obtain ⟨a, b2, c, d, hqs, _, _⟩ :=
    rowOk_true_parts r (List.all_eq_true.mp hallok r hr)
  have hpa : pyInt r.pc = some a := ((parseRow_eq_some r a b2 c d).mp hqs).1
  have ha : a = s.pc := by
    rw [hpa] at hrpc
    exact Option.some.inj hrpc
  have hpcs : s.pc ∈ pcs :=
    (hp s.pc).mpr (Or.inr ⟨r, hr, by simp [rowPcOpt, hqs, ha]⟩)
  have hck := List.all_eq_true.mp hall s.pc hpcs
  rw [Bool.and_eq_true] at hck
  have hcont : progContains prog (s.pc, sym) = true := by
    rcases hsym with rfl | rfl
    · exact hck.1
    · exact hck.2
  have hlk := progLookup_isSome prog (s.pc, sym) hcont
  unfold stepM
  rw [hread]
  cases hl : progLookup prog (s.pc, sym) with
  | none => rw [hl] at hlk; cases hlk
  | some rule => simp [hl]

/-- Witness for C4: the first step from reset under the loaded src4 table
succeeds. -/
theorem C4_witness : (stepM prog4 4 (mkInitial 4)).isSome = true :=
  C4_lookup_total src4 prog4 4 (mkInitial 4) 0 (by decide) (by decide) (Or.inl rfl)
    ⟨⟨"1", "0", "0", "R", "2"⟩, by decide, by decide⟩

/-- C4 counterexample to the claim as stated: src4 passes load-time
validation (both rows of state 1 are present), yet the state reached one
step after reset with N = 4 has control state 2, for which no rule exists,
so the very next step fails its lookup at runtime. -/
theorem C4_counterexample :
    load_program src4 = Except.ok prog4 ∧
    runSteps prog4 4 1 (mkInitial 4) = some s4bad ∧
    stepM prog4 4 s4bad = none := by decide

end FTM
